import Mathlib

/-!
Verification of the dead-binding elimination engine of
`src/helper_scripts/remove_unused_variables.py`.

The development is a shallow embedding of the script:

* `UnusedVariableDetector` together with `visitSimple`, `visitBody`,
  `visitStmt`, `visitList`, `visitFile` and `get_unused_variables`
  translates the `ast.NodeVisitor` subclass of the script
  (`visit_FunctionDef`, `visit_Assign`, `visit_Name`,
  `get_unused_variables`).
* `matchesCore` implements, character by character, when one physical
  line is matched by the removal regex `^\s*var\s*=\s*.*$` (MULTILINE)
  that `process_python_file` feeds to `re.sub`; `removeOnePass`,
  `countMatches` and `pyRemoveLoop` translate the
  `for var in unused_vars` loop (`re.findall` then `re.sub`).
* `process_python_file` and `process_javascript_file` translate the two
  per-file entry points; `pyRunDisk` / `jsRunDisk` additionally model the
  read / write I/O steps with an explicit fault, reflecting that the
  write-back is `open(filepath, 'w')` followed by `f.write(...)`
  (truncate, then write) inside the outer `try/except`.

Python source files are represented by a small structured fragment
(`PyFile`) whose statements render to exactly the physical lines the
script manipulates; the regex and the word-boundary counting of the
JavaScript path operate on the rendered characters.
-/

/-- The character class `\s` of Python's `re` module. -/
def isSpaceChar (c : Char) : Bool :=
  c = ' ' || c = '\t' || c = '\n' || c = '\r' || c = '\x0b' || c = '\x0c'

/-- First character of a Python identifier. -/
def isIdentStart (c : Char) : Bool := c.isAlpha || c = '_'

/-- Any character of a Python identifier (the regex class `\w`). -/
def isIdentChar (c : Char) : Bool := c.isAlphanum || c = '_'

/-- A nonempty list of characters forming a Python identifier. -/
def ValidNameL : List Char → Bool
  | [] => false
  | c :: cs => isIdentStart c && cs.all isIdentChar

/-- A string that is a Python identifier. -/
def ValidName (s : String) : Bool := ValidNameL s.data

/-- Translation of `var.startswith('_')`. -/
def startsWithUnderscore (s : String) : Bool :=
  match s.data with
  | [] => false
  | c :: _ => c = '_'

/-- After the variable name, the regex requires `\s*=`: skipping spaces,
the next character must be `=`. -/
def eqAfterEq (r : List Char) : Bool :=
  match r.dropWhile isSpaceChar with
  | [] => false
  | c :: _ => c = '='

/-- `matchesCore v l` holds exactly when the physical line `l` (no
newline inside) is matched by Python's `^\s*v\s*=\s*.*$` in MULTILINE
mode: optional leading whitespace, the literal name, optional
whitespace, `=`, then the rest of the line. -/
def matchesCore (v l : List Char) : Bool :=
  (v.isPrefixOf (l.dropWhile isSpaceChar)) &&
    eqAfterEq ((l.dropWhile isSpaceChar).drop v.length)

/-! ## The structured Python fragment -/

/-- Expressions of the embedded fragment.  `lit` carries the source text
of a literal (digits), `pname` is a Name in Load context, `call` is a
call of a named function on named arguments (all Load contexts). -/
inductive PExpr where
  | lit (text : String)
  | pname (s : String)
  | call (fn : String) (args : List String)
deriving DecidableEq

/-- Simple (one physical line) statements. -/
inductive SimpleStmt where
  | assign (targets : List String) (rhs : PExpr)
  | exprStmt (e : PExpr)
deriving DecidableEq

/-- Module-level statements: a simple statement, or a `def` whose body
is a list of simple statements. -/
inductive PStmt where
  | simple (s : SimpleStmt)
  | funcDef (fname : String) (params : List String) (body : List SimpleStmt)
deriving DecidableEq

abbrev PyFile := List PStmt

/-- Names appearing in Load context inside an expression, in visit
order (`visit_Name` with `ast.Load` context). -/
def loadsOfExpr : PExpr → List String
  | .lit _ => []
  | .pname s => [s]
  | .call fn args => fn :: args

def loadNamesSimple : SimpleStmt → List String
  | .assign _ rhs => loadsOfExpr rhs
  | .exprStmt e => loadsOfExpr e

def loadNamesBody : List SimpleStmt → List String
  | [] => []
  | s :: r => loadNamesSimple s ++ loadNamesBody r

def loadNamesStmt : PStmt → List String
  | .simple s => loadNamesSimple s
  | .funcDef _ _ b => loadNamesBody b

/-- All Load-context name occurrences of a file. -/
def loadNames : PyFile → List String
  | [] => []
  | st :: r => loadNamesStmt st ++ loadNames r

def targetsSimple : SimpleStmt → List String
  | .assign ts _ => ts
  | .exprStmt _ => []

def assignedBody : List SimpleStmt → List String
  | [] => []
  | s :: r => targetsSimple s ++ assignedBody r

def assignedStmt : PStmt → List String
  | .simple s => targetsSimple s
  | .funcDef _ _ b => assignedBody b

/-- All assignment-target names of a file (module level and function
bodies). -/
def assignedNames : PyFile → List String
  | [] => []
  | st :: r => assignedStmt st ++ assignedNames r

def paramStmt : PStmt → List String
  | .simple _ => []
  | .funcDef _ ps _ => ps

/-- All function-parameter names of a file. -/
def paramNames : PyFile → List String
  | [] => []
  | st :: r => paramStmt st ++ paramNames r

/-! ## The detector (translation of class `UnusedVariableDetector`) -/

/-- State of the AST visitor: `defined_vars` maps a variable to the list
of its assignment line numbers (insertion ordered), `used_vars` records
every Load-context name, `function_params` every declared parameter. -/
structure UnusedVariableDetector where
  defined_vars : List (String × List Nat)
  used_vars : List String
  function_params : List String
deriving DecidableEq

def emptyDetector : UnusedVariableDetector := ⟨[], [], []⟩

/-- `self.defined_vars[target.id].append(node.lineno)` (creating the
entry when absent). -/
def addDefined (d : UnusedVariableDetector) (v : String) (ln : Nat) :
    UnusedVariableDetector :=
  if d.defined_vars.any (fun p => p.1 = v) then
    { d with defined_vars :=
        d.defined_vars.map (fun p => if p.1 = v then (p.1, p.2 ++ [ln]) else p) }
  else
    { d with defined_vars := d.defined_vars ++ [(v, [ln])] }

/-- `self.used_vars.add(node.id)` for each Load-context name. -/
def addUses (d : UnusedVariableDetector) (vs : List String) :
    UnusedVariableDetector :=
  { d with used_vars := d.used_vars ++ vs }

/-- Visiting one simple statement at line `ln`: `visit_Assign` records
every `ast.Name` target under the statement's line number, and the
generic visit of the value (and of an expression statement) feeds
`visit_Name` on each Load-context name. -/
def visitSimple (ln : Nat) (s : SimpleStmt) (d : UnusedVariableDetector) :
    UnusedVariableDetector :=
  match s with
  | .assign ts rhs => addUses (ts.foldl (fun acc t => addDefined acc t ln) d) (loadsOfExpr rhs)
  | .exprStmt e => addUses d (loadsOfExpr e)

/-- Visiting the body of a `def`, one statement per line. -/
def visitBody : List SimpleStmt → UnusedVariableDetector × Nat → UnusedVariableDetector × Nat
  | [], p => p
  | s :: r, p => visitBody r (visitSimple p.2 s p.1, p.2 + 1)

/-- Visiting one module-level statement starting at line `p.2`:
`visit_FunctionDef` adds the parameters and generic-visits the body. -/
def visitStmt (p : UnusedVariableDetector × Nat) (st : PStmt) :
    UnusedVariableDetector × Nat :=
  match st with
  | .simple s => (visitSimple p.2 s p.1, p.2 + 1)
  | .funcDef _ ps body =>
      let d1 := { p.1 with function_params := p.1.function_params ++ ps }
      ((visitBody body (d1, p.2 + 1)).1, p.2 + 1 + body.length)

def visitList : PyFile → UnusedVariableDetector × Nat → UnusedVariableDetector × Nat
  | [], p => p
  | st :: r, p => visitList r (visitStmt p st)

/-- `detector.visit(tree)` on a whole module (line numbering starts at 1). -/
def visitFile (f : PyFile) : UnusedVariableDetector :=
  (visitList f (emptyDetector, 1)).1

/-- Translation of `get_unused_variables`: defined, never used, not a
function parameter, and not starting with `_`. -/
def get_unused_variables (d : UnusedVariableDetector) : List String :=
  (d.defined_vars.map Prod.fst).filter
    (fun v => decide (v ∉ d.used_vars ∧ v ∉ d.function_params ∧
      startsWithUnderscore v = false))

def unusedOf (f : PyFile) : List String := get_unused_variables (visitFile f)

/-! ## Rendering the fragment to physical lines -/

def joinSep (sep : List Char) : List (List Char) → List Char
  | [] => []
  | [x] => x
  | x :: y :: r => x ++ sep ++ joinSep sep (y :: r)

def renderExpr : PExpr → List Char
  | .lit t => t.data
  | .pname s => s.data
  | .call fn args => fn.data ++ '(' :: (joinSep [',', ' '] (args.map String.data) ++ [')'])

/-- One simple statement as one physical line; a multi-target assignment
`x = y = e` is joined with `" = "`. -/
def render1 : SimpleStmt → List Char
  | .assign ts rhs =>
      joinSep [' ', '=', ' '] (ts.map String.data) ++ ' ' :: '=' :: ' ' :: renderExpr rhs
  | .exprStmt e => renderExpr e

def indent4 : List Char := [' ', ' ', ' ', ' ']

def renderHeader (fname : String) (params : List String) : List Char :=
  'd' :: 'e' :: 'f' :: ' ' ::
    (fname.data ++ '(' :: (joinSep [',', ' '] (params.map String.data) ++ [')', ':']))

def renderStmt : PStmt → List (List Char)
  | .simple s => [render1 s]
  | .funcDef fn ps body => renderHeader fn ps :: body.map (fun s => indent4 ++ render1 s)

/-- The physical lines of a file. -/
def renderFile : PyFile → List (List Char)
  | [] => []
  | st :: r => renderStmt st ++ renderFile r

/-! ## The removal loop of `process_python_file` -/

/-- `re.sub(pattern + r'\n?', '', content, flags=re.MULTILINE)`: every
line matched by the pattern is deleted (together with its newline). -/
def removeOnePass (v : String) (ls : List (List Char)) : List (List Char) :=
  ls.filter (fun l => !(matchesCore v.data l))

/-- `len(re.findall(pattern, content, re.MULTILINE))`. -/
def countMatches (v : String) (ls : List (List Char)) : Nat :=
  (ls.filter (fun l => matchesCore v.data l)).length

/-- The `for var in unused_vars` loop: count the matches in the current
content, and when there are any, delete them and add the count. -/
def pyRemoveLoop : List String → List (List Char) → List (List Char) × Nat
  | [], ls => (ls, 0)
  | v :: rest, ls =>
      let m := countMatches v ls
      if 0 < m then
        let r := pyRemoveLoop rest (removeOnePass v ls)
        (r.1, m + r.2)
      else pyRemoveLoop rest ls

/-- Translation of `process_python_file` after a successful read:
`parsed = none` is the `ast.parse` `SyntaxError` branch (skip, one
error); otherwise detect, remove, and return the new content together
with `(removed_count, errors_count)`.  The content is written back only
when `removed_count > 0`. -/
def process_python_file (parsed : Option PyFile) (content : List (List Char)) :
    List (List Char) × Nat × Nat :=
  match parsed with
  | none => (content, 0, 1)
  | some tree =>
      let unused := get_unused_variables (visitFile tree)
      if unused.isEmpty then (content, 0, 0)
      else
        let r := pyRemoveLoop unused content
        if 0 < r.2 then (r.1, r.2, 0) else (content, 0, 0)

/-- Running the engine on a structured file and its rendered text. -/
def pyRun (f : PyFile) : List (List Char) × Nat × Nat :=
  process_python_file (some f) (renderFile f)

/-! ## The JavaScript path -/

inductive JsKw where
  | kConst
  | kLet
  | kVar
deriving DecidableEq

def kwText : JsKw → List Char
  | .kConst => "const".data
  | .kLet => "let".data
  | .kVar => "var".data

/-- A JavaScript physical line: either a declaration matched by
`^(\s*)(const|let|var)\s+(\w+)\s*=\s*[^;]+;` or any other line. -/
inductive JsLine where
  | decl (indent : List Char) (kw : JsKw) (name : String) (rhs : List Char)
  | other (text : List Char)
deriving DecidableEq

def renderJsLine : JsLine → List Char
  | .decl ind kw n rhs => ind ++ kwText kw ++ ' ' :: (n.data ++ ' ' :: '=' :: ' ' :: (rhs ++ [';']))
  | .other t => t

/-- The file content: lines joined by newlines. -/
def flattenJs (ls : List JsLine) : List Char := joinSep ['\n'] (ls.map renderJsLine)

def isWordChar (c : Char) : Bool := c.isAlphanum || c = '_'

def boundaryOk : Option Char → Bool
  | none => true
  | some c => !(isWordChar c)

def rightBoundary (r : List Char) : Bool :=
  match r with
  | [] => true
  | c :: _ => !(isWordChar c)

/-- Counting the occurrences of `\b w \b` (the usage pattern of
`process_javascript_file`), scanning left to right with the previous
character as boundary witness. -/
def countWordFrom (w : List Char) (prev : Option Char) : List Char → Nat
  | [] => 0
  | c :: rest =>
      (if boundaryOk prev && w.isPrefixOf (c :: rest) &&
          rightBoundary ((c :: rest).drop w.length)
       then 1 else 0) + countWordFrom w (some c) rest

def countWordOcc (w cs : List Char) : Nat := countWordFrom w none cs

def isDecl : JsLine → Bool
  | .decl _ _ _ _ => true
  | .other _ => false

def declName : JsLine → String
  | .decl _ _ n _ => n
  | .other _ => ""

/-- `re.sub(re.escape(match.group(0)) + r'\n?', '', content, count=1)`:
delete the first line equal to the matched declaration. -/
def removeFirstLine (t : JsLine) : List JsLine → List JsLine
  | [] => []
  | l :: r => if l = t then r else l :: removeFirstLine t r

/-- The `for match in list(matches)` loop: the declaration matches come
from the original content, the usage count is taken in the current
content, and a declaration whose name occurs exactly once is deleted. -/
def jsLoop : List JsLine → List JsLine × Nat → List JsLine × Nat
  | [], p => p
  | m :: rest, p =>
      if countWordOcc (declName m).data (flattenJs p.1) = 1 then
        jsLoop rest (removeFirstLine m p.1, p.2 + 1)
      else jsLoop rest p

/-- Translation of `process_javascript_file` after a successful read. -/
def process_javascript_file (file : List JsLine) : List JsLine × Nat × Nat :=
  let r := jsLoop (file.filter isDecl) (file, 0)
  if 0 < r.2 then (r.1, r.2, 0) else (file, 0, 0)

/-! ## The I/O model: read, write-back and faults

The script's write-back is `open(filepath, 'w')` followed by
`f.write(modified_content)`: the file is truncated on open and then the
new content is written, so a failure during the write leaves a prefix of
the new content on disk.  All exceptions are caught by the enclosing
`try/except`, which returns `(0, 1)`. -/

inductive Fault where
  | noFault
  | readFail
  | writeFail (k : Nat)
deriving DecidableEq

/-- The on-disk byte content of a Python file: each line followed by a
newline (the form `re.sub(... + r'\n?', ...)` maintains). -/
def flattenPy : List (List Char) → List Char
  | [] => []
  | l :: r => l ++ '\n' :: flattenPy r

/-- `process_python_file` with the I/O steps made explicit.  A read
failure is caught before anything else happens; a write failure happens
only if a write is attempted (`removed_count > 0`) and leaves the first
`k` bytes of the new content on disk (truncate-then-write). -/
def pyRunDisk (parsed : Option PyFile) (disk : List (List Char)) (fault : Fault) :
    List Char × Nat × Nat :=
  match fault with
  | .readFail => (flattenPy disk, 0, 1)
  | _ =>
    match parsed with
    | none => (flattenPy disk, 0, 1)
    | some tree =>
        let unused := get_unused_variables (visitFile tree)
        if unused.isEmpty then (flattenPy disk, 0, 0)
        else
          let r := pyRemoveLoop unused disk
          if 0 < r.2 then
            match fault with
            | .writeFail k => ((flattenPy r.1).take k, 0, 1)
            | _ => (flattenPy r.1, r.2, 0)
          else (flattenPy disk, 0, 0)

/-- `process_javascript_file` with the I/O steps made explicit. -/
def jsRunDisk (file : List JsLine) (fault : Fault) : List Char × Nat × Nat :=
  match fault with
  | .readFail => (flattenJs file, 0, 1)
  | _ =>
      let r := jsLoop (file.filter isDecl) (file, 0)
      if 0 < r.2 then
        match fault with
        | .writeFail k => ((flattenJs r.1).take k, 0, 1)
        | _ => (flattenJs r.1, r.2, 0)
      else (flattenJs file, 0, 0)

/-! ## Well-formedness and auxiliary predicates -/

def wfExpr : PExpr → Bool
  | .lit t => !t.data.isEmpty && t.data.all Char.isDigit
  | .pname s => ValidName s
  | .call fn args => ValidName fn && args.all ValidName

def wfSimple : SimpleStmt → Bool
  | .assign ts rhs => !ts.isEmpty && ts.all ValidName && wfExpr rhs
  | .exprStmt e => wfExpr e

def wfStmt : PStmt → Bool
  | .simple s => wfSimple s
  | .funcDef fn ps b => ValidName fn && ps.all ValidName && b.all wfSimple

/-- Every name of the file is a genuine Python identifier (as any file
produced by `ast.parse` satisfies). -/
def WFFile (f : PyFile) : Bool := f.all wfStmt

def singleTargetSimple : SimpleStmt → Bool
  | .assign ts _ => ts.length == 1
  | .exprStmt _ => true

/-- Every assignment of the file has exactly one target. -/
def SingleTargets (f : PyFile) : Bool :=
  f.all (fun st =>
    match st with
    | .simple s => singleTargetSimple s
    | .funcDef _ _ b => b.all singleTargetSimple)

/-- Some line of the text still assigns `v` (a Load of `v` resolves to a
binding). -/
def textBinds (ls : List (List Char)) (v : String) : Bool :=
  ls.any (fun l => matchesCore v.data l)

/-- No line of the text is an assignment to `v`. -/
def textNoMatch (v : String) (ls : List (List Char)) : Bool :=
  ls.all (fun l => !(matchesCore v.data l))

/-- Every line of `src` that assigns `v` is still present in `out`. -/
def linesKept (v : String) (src out : List (List Char)) : Bool :=
  src.all (fun l => !(matchesCore v.data l) || out.contains l)

/-! ## Spec-side liveness contract (for comparison with the code)

Modelled from the spec: "a Binding is dead iff no Reference with
context=Load and matching name exists in the Binding's own Scope or in
any descendant Scope, textually after — or in a nested closure
capturing — the Binding's declaration", with the declaration located at
the last assignment line ("last write wins").  Specialized to files
with no nested scopes (module-only), where the descendant-scope and
closure clauses are vacuous. -/

def isSimpleStmt : PStmt → Bool
  | .simple _ => true
  | .funcDef _ _ _ => false

def moduleLineStmtsFrom : Nat → PyFile → List (Nat × SimpleStmt)
  | _, [] => []
  | n, .simple s :: r => (n, s) :: moduleLineStmtsFrom (n + 1) r
  | n, .funcDef _ _ b :: r => moduleLineStmtsFrom (n + 1 + b.length) r

def specAssignLines (f : PyFile) (v : String) : List Nat :=
  (moduleLineStmtsFrom 1 f).filterMap (fun p =>
    match p.2 with
    | .assign ts _ => if v ∈ ts then some p.1 else none
    | _ => none)

def specLoadLines (f : PyFile) (v : String) : List Nat :=
  (moduleLineStmtsFrom 1 f).filterMap (fun p =>
    if v ∈ loadNamesSimple p.2 then some p.1 else none)

/-- Modelled from the spec (section 4.3 contract, flat files): `v` is
dead iff it is bound and no Load of `v` occurs textually after its last
assignment line. -/
def specDeadFlat (f : PyFile) (v : String) : Bool :=
  f.all isSimpleStmt &&
  !(specAssignLines f v).isEmpty &&
  (specLoadLines f v).all (fun ln => ln ≤ (specAssignLines f v).foldr max 0)

/-! ## Lemmas about characters and the regex matcher -/

lemma identStart_to_identChar {c : Char} (h : isIdentStart c = true) :
    isIdentChar c = true := by
  unfold isIdentStart at h
  unfold isIdentChar Char.isAlphanum
  rcases Bool.or_eq_true_iff.mp h with h1 | h1
  · simp [h1]
  · simp [h1]

lemma identStart_not_space {c : Char} (h : isIdentStart c = true) :
    isSpaceChar c = false := by
  cases hs : isSpaceChar c with
  | false => rfl
  | true =>
      exfalso
      unfold isSpaceChar at hs
      simp only [Bool.or_eq_true, decide_eq_true_eq] at hs
      rcases hs with ((((h1 | h1) | h1) | h1) | h1) | h1 <;> subst h1 <;>
        revert h <;> decide

lemma identChar_not_space {c : Char} (h : isIdentChar c = true) :
    isSpaceChar c = false := by
  cases hs : isSpaceChar c with
  | false => rfl
  | true =>
      exfalso
      unfold isSpaceChar at hs
      simp only [Bool.or_eq_true, decide_eq_true_eq] at hs
      rcases hs with ((((h1 | h1) | h1) | h1) | h1) | h1 <;> subst h1 <;>
        revert h <;> decide

lemma identChar_ne_eq {c : Char} (h : isIdentChar c = true) : c ≠ '=' := by
  intro h1
  subst h1
  revert h
  decide

lemma validL_head {a : Char} {v : List Char} (h : ValidNameL (a :: v) = true) :
    isIdentStart a = true := by
  unfold ValidNameL at h
  exact (Bool.and_eq_true_iff.mp h).1

lemma validL_all_ident {v : List Char} (h : ValidNameL v = true) :
    ∀ c ∈ v, isIdentChar c = true := by
  cases v with
  | nil => intro c hc; cases hc
  | cons a w =>
      unfold ValidNameL at h
      rcases Bool.and_eq_true_iff.mp h with ⟨h1, h2⟩
      intro c hc
      rcases List.mem_cons.mp hc with h3 | h3
      · subst h3; exact identStart_to_identChar h1
      · exact (List.all_eq_true.mp h2) c h3

lemma mem_of_mem_dropWhile {α : Type} {p : α → Bool} {a : α} :
    ∀ {l : List α}, a ∈ l.dropWhile p → a ∈ l := by
  intro l
  induction l with
  | nil => intro h; simpa using h
  | cons b r ih =>
      intro h
      rw [List.dropWhile_cons] at h
      by_cases hb : p b = true
      · simp [hb] at h; exact List.mem_cons_of_mem _ (ih h)
      · simp [hb] at h; simpa using h

lemma mem_of_mem_dropn {α : Type} {a : α} :
    ∀ (n : Nat) {l : List α}, a ∈ l.drop n → a ∈ l := by
  intro n
  induction n with
  | zero => intro l h; simpa using h
  | succ m ih =>
      intro l h
      cases l with
      | nil => simpa using h
      | cons b r => exact List.mem_cons_of_mem _ (ih h)

lemma dropWhile_append_all {α : Type} {p : α → Bool} :
    ∀ (sp l : List α), (∀ c ∈ sp, p c = true) →
      (sp ++ l).dropWhile p = l.dropWhile p := by
  intro sp
  induction sp with
  | nil => intro l _; rfl
  | cons c r ih =>
      intro l h
      have hc : p c = true := h c (List.mem_cons_self _ _)
      simp only [List.cons_append, List.dropWhile_cons, hc, if_true]
      exact ih l (fun d hd => h d (List.mem_cons_of_mem _ hd))

lemma dropWhile_cons_neg {α : Type} {p : α → Bool} {c : α} {l : List α}
    (h : p c = false) : (c :: l).dropWhile p = c :: l := by
  simp [List.dropWhile_cons, h]

lemma isPrefixOf_append_self : ∀ (v r : List Char), v.isPrefixOf (v ++ r) = true := by
  intro v
  induction v with
  | nil => intro r; simp [List.isPrefixOf]
  | cons a w ih => intro r; simpa [List.isPrefixOf] using ih r

lemma exists_of_isPrefixOf :
    ∀ (u l : List Char), u.isPrefixOf l = true → ∃ r, l = u ++ r := by
  intro u
  induction u with
  | nil => intro l _; exact ⟨l, rfl⟩
  | cons a w ih =>
      intro l h
      cases l with
      | nil => simp [List.isPrefixOf] at h
      | cons b r =>
          simp only [List.isPrefixOf, Bool.and_eq_true, beq_iff_eq] at h
          obtain ⟨r2, hr⟩ := ih r h.2
          exact ⟨r2, by simp [h.1, hr]⟩

lemma append_take_of_le :
    ∀ (u v r1 r2 : List Char), u ++ r1 = v ++ r2 → u.length ≤ v.length →
      ∃ w, v = u ++ w ∧ r1 = w ++ r2 := by
  intro u
  induction u with
  | nil => intro v r1 r2 h _; exact ⟨v, rfl, h⟩
  | cons a u2 ih =>
      intro v r1 r2 h hl
      cases v with
      | nil => simp at hl
      | cons b v2 =>
          simp only [List.cons_append, List.cons.injEq] at h
          obtain ⟨w, hw1, hw2⟩ := ih v2 r1 r2 h.2 (by simpa using hl)
          exact ⟨w, by simp [h.1, hw1], hw2⟩

lemma eqAfterEq_cons_false {c : Char} {l : List Char}
    (hs : isSpaceChar c = false) (hne : c ≠ '=') : eqAfterEq (c :: l) = false := by
  unfold eqAfterEq
  rw [dropWhile_cons_neg hs]
  simp [hne]

/-- A line that contains no `=` character is never matched by the
removal pattern. -/
lemma matchesCore_of_no_eq {v l : List Char} (h : '=' ∉ l) :
    matchesCore v l = false := by
  cases hm : matchesCore v l with
  | false => rfl
  | true =>
      exfalso
      unfold matchesCore at hm
      rcases Bool.and_eq_true_iff.mp hm with ⟨_, h2⟩
      unfold eqAfterEq at h2
      revert h2
      cases hd : ((l.dropWhile isSpaceChar).drop v.length).dropWhile isSpaceChar with
      | nil => intro h2; cases h2
      | cons c r =>
          intro h2
          have hc : c = '=' := by simpa using h2
          subst hc
          have h3 : '=' ∈ ((l.dropWhile isSpaceChar).drop v.length).dropWhile isSpaceChar := by
            rw [hd]; exact List.mem_cons_self _ _
          exact h (mem_of_mem_dropWhile (mem_of_mem_dropn _ (mem_of_mem_dropWhile h3)))

/-- A line of the form `spaces ++ v ++ " =..."` is matched by the
pattern for `v`. -/
lemma matchesCore_pos {v : List Char} (hv : ValidNameL v = true)
    (sp : List Char) (hsp : ∀ c ∈ sp, isSpaceChar c = true) (rest : List Char) :
    matchesCore v (sp ++ (v ++ (' ' :: '=' :: rest))) = true := by
  have hd : (sp ++ (v ++ (' ' :: '=' :: rest))).dropWhile isSpaceChar
      = v ++ (' ' :: '=' :: rest) := by
    rw [dropWhile_append_all sp _ hsp]
    cases v with
    | nil => exact absurd hv (by simp [ValidNameL])
    | cons a w =>
        exact dropWhile_cons_neg (identStart_not_space (validL_head hv))
  unfold matchesCore
  rw [hd, List.drop_left, isPrefixOf_append_self]
  simp [eqAfterEq, List.dropWhile_cons, isSpaceChar]

/-- Helper for uniqueness: if `u ++ r1 = v ++ r2`, the name `v` consists
of identifier characters, and after `u` the line continues with optional
space and `=`, then `u` cannot stop strictly inside `v`. -/
lemma matchAux_eq {u v r1 r2 : List Char} (hlen : u.length ≤ v.length)
    (happ : u ++ r1 = v ++ r2) (hvc : ∀ c ∈ v, isIdentChar c = true)
    (hafter : eqAfterEq r1 = true) : u = v := by
  obtain ⟨w, hw1, hw2⟩ := append_take_of_le u v r1 r2 happ hlen
  cases w with
  | nil => simpa using hw1.symm
  | cons c w2 =>
      exfalso
      have hcv : c ∈ v := by rw [hw1]; exact List.mem_append_right _ (List.mem_cons_self _ _)
      have hci : isIdentChar c = true := hvc c hcv
      rw [hw2, List.cons_append] at hafter
      rw [eqAfterEq_cons_false (identChar_not_space hci) (identChar_ne_eq hci)] at hafter
      cases hafter

/-- Two valid identifiers matched against the same line are equal: the
removal pattern identifies at most one variable per line. -/
lemma matchesCore_unique {u v l : List Char} (hu : ValidNameL u = true)
    (hv : ValidNameL v = true) (h1 : matchesCore u l = true)
    (h2 : matchesCore v l = true) : u = v := by
  unfold matchesCore at h1 h2
  rcases Bool.and_eq_true_iff.mp h1 with ⟨h1p, h1e⟩
  rcases Bool.and_eq_true_iff.mp h2 with ⟨h2p, h2e⟩
  obtain ⟨r1, hr1⟩ := exists_of_isPrefixOf _ _ h1p
  obtain ⟨r2, hr2⟩ := exists_of_isPrefixOf _ _ h2p
  have happ : u ++ r1 = v ++ r2 := by rw [← hr1, ← hr2]
  have h1e' : eqAfterEq r1 = true := by
    have : (l.dropWhile isSpaceChar).drop u.length = r1 := by rw [hr1, List.drop_left]
    rwa [this] at h1e
  have h2e' : eqAfterEq r2 = true := by
    have : (l.dropWhile isSpaceChar).drop v.length = r2 := by rw [hr2, List.drop_left]
    rwa [this] at h2e
  rcases Nat.le_total u.length v.length with hle | hle
  · exact matchAux_eq hle happ (validL_all_ident hv) h1e'
  · exact (matchAux_eq hle happ.symm (validL_all_ident hu) h2e').symm

/-! ## Lemmas about the removal loop -/

lemma mem_contains_lines {ls : List (List Char)} {x : List Char} (h : x ∈ ls) :
    ls.contains x = true := by
  induction ls with
  | nil => cases h
  | cons a r ih =>
      rcases List.mem_cons.mp h with h1 | h1
      · subst h1; simp [List.contains]
      · have := ih h1
        simp [List.contains] at this ⊢
        exact Or.inr this

lemma loop_subset : ∀ (us : List String) (ls : List (List Char)),
    (pyRemoveLoop us ls).1 ⊆ ls := by
  intro us
  induction us with
  | nil => intro ls; unfold pyRemoveLoop; exact fun _ h => h
  | cons u rest ih =>
      intro ls
      unfold pyRemoveLoop
      by_cases hm : 0 < countMatches u ls
      · simp only [hm, if_true]
        intro l hl
        have h1 : l ∈ removeOnePass u ls := ih (removeOnePass u ls) hl
        unfold removeOnePass at h1
        exact (List.mem_filter.mp h1).1
      · simp only [hm, if_false]
        exact ih ls

lemma countMatches_zero {v : String} {ls : List (List Char)}
    (h : countMatches v ls = 0) : ∀ l ∈ ls, matchesCore v.data l = false := by
  unfold countMatches at h
  have h2 := List.eq_nil_of_length_eq_zero h
  intro l hl
  by_cases hc : matchesCore v.data l = true
  · exfalso
    have : l ∈ ls.filter (fun l => matchesCore v.data l) := List.mem_filter.mpr ⟨hl, hc⟩
    rw [h2] at this
    cases this
  · exact Bool.eq_false_iff.mpr hc

/-- After the loop has processed a variable of the unused list, no line
assigning it remains. -/
lemma loop_removes : ∀ (us : List String) (ls : List (List Char)) (v : String),
    v ∈ us → ∀ l ∈ (pyRemoveLoop us ls).1, matchesCore v.data l = false := by
  intro us
  induction us with
  | nil => intro ls v hv; cases hv
  | cons u rest ih =>
      intro ls v hv l hl
      unfold pyRemoveLoop at hl
      by_cases huv : v = u
      · subst huv
        by_cases hm : 0 < countMatches v ls
        · simp only [hm, if_true] at hl
          have hl2 : l ∈ removeOnePass v ls := loop_subset rest _ hl
          unfold removeOnePass at hl2
          have := (List.mem_filter.mp hl2).2
          simpa using this
        · simp only [hm, if_false] at hl
          have hm0 : countMatches v ls = 0 := Nat.eq_zero_of_not_pos hm
          exact countMatches_zero hm0 l (loop_subset rest ls hl)
      · have hvr : v ∈ rest := by
          rcases List.mem_cons.mp hv with h1 | h1
          · exact absurd h1 huv
          · exact h1
        by_cases hm : 0 < countMatches u ls
        · simp only [hm, if_true] at hl
          exact ih (removeOnePass u ls) v hvr l hl
        · simp only [hm, if_false] at hl
          exact ih ls v hvr l hl

/-- A line assigning a variable that is not in the unused list survives
the whole loop (valid identifiers only: the pattern identifies the
variable of a line uniquely). -/
lemma loop_keeps : ∀ (us : List String) (ls : List (List Char)) (v : String),
    ValidName v = true → (∀ u ∈ us, ValidName u = true) → v ∉ us →
    ∀ l ∈ ls, matchesCore v.data l = true → l ∈ (pyRemoveLoop us ls).1 := by
  intro us
  induction us with
  | nil => intro ls v _ _ _ l hl _; unfold pyRemoveLoop; exact hl
  | cons u rest ih =>
      intro ls v hv hus hnv l hl hm
      have hvu : v ≠ u := fun h => hnv (h ▸ List.mem_cons_self _ _)
      have hrest : v ∉ rest := fun h => hnv (List.mem_cons_of_mem _ h)
      have husr : ∀ w ∈ rest, ValidName w = true :=
        fun w hw => hus w (List.mem_cons_of_mem _ hw)
      unfold pyRemoveLoop
      by_cases hcm : 0 < countMatches u ls
      · simp only [hcm, if_true]
        have hlf : l ∈ removeOnePass u ls := by
          unfold removeOnePass
          apply List.mem_filter.mpr
          refine ⟨hl, ?_⟩
          have : matchesCore u.data l = false := by
            cases hmu : matchesCore u.data l with
            | false => rfl
            | true =>
                exfalso
                have := matchesCore_unique (hus u (List.mem_cons_self _ _)) hv hmu hm
                exact hvu (String.ext this).symm
          simp [this]
        exact ih (removeOnePass u ls) v hv husr hrest l hlf hm
      · simp only [hcm, if_false]
        exact ih ls v hv husr hrest l hl hm

/-- If the loop counted nothing, it also removed nothing, and no line
ever matched any of its variables. -/
lemma loop_zero : ∀ (us : List String) (ls : List (List Char)),
    (pyRemoveLoop us ls).2 = 0 →
    (pyRemoveLoop us ls).1 = ls ∧ ∀ v ∈ us, countMatches v ls = 0 := by
  intro us
  induction us with
  | nil => intro ls _; exact ⟨rfl, fun v hv => absurd hv (List.not_mem_nil v)⟩
  | cons u rest ih =>
      intro ls h
      unfold pyRemoveLoop at h ⊢
      by_cases hm : 0 < countMatches u ls
      · exfalso
        simp only [hm, if_true] at h
        omega
      · simp only [hm, if_false] at h ⊢
        have hm0 : countMatches u ls = 0 := Nat.eq_zero_of_not_pos hm
        obtain ⟨h1, h2⟩ := ih ls h
        refine ⟨h1, fun v hv => ?_⟩
        rcases List.mem_cons.mp hv with h3 | h3
        · subst h3; exact hm0
        · exact h2 v h3

/-! ## Lemmas about the detector -/

lemma used_addDefined (d : UnusedVariableDetector) (v : String) (ln : Nat) :
    (addDefined d v ln).used_vars = d.used_vars := by
  unfold addDefined
  split <;> rfl

lemma params_addDefined (d : UnusedVariableDetector) (v : String) (ln : Nat) :
    (addDefined d v ln).function_params = d.function_params := by
  unfold addDefined
  split <;> rfl

lemma used_foldDefined (ln : Nat) : ∀ (ts : List String) (d : UnusedVariableDetector),
    (ts.foldl (fun acc t => addDefined acc t ln) d).used_vars = d.used_vars := by
  intro ts
  induction ts with
  | nil => intro d; rfl
  | cons t r ih => intro d; rw [List.foldl_cons, ih, used_addDefined]

lemma params_foldDefined (ln : Nat) : ∀ (ts : List String) (d : UnusedVariableDetector),
    (ts.foldl (fun acc t => addDefined acc t ln) d).function_params = d.function_params := by
  intro ts
  induction ts with
  | nil => intro d; rfl
  | cons t r ih => intro d; rw [List.foldl_cons, ih, params_addDefined]

lemma used_visitSimple (ln : Nat) (s : SimpleStmt) (d : UnusedVariableDetector) :
    (visitSimple ln s d).used_vars = d.used_vars ++ loadNamesSimple s := by
  cases s with
  | assign ts rhs =>
      show (addUses _ _).used_vars = _
      unfold addUses
      simp only [loadNamesSimple]
      rw [used_foldDefined]
  | exprStmt e => rfl

lemma params_visitSimple (ln : Nat) (s : SimpleStmt) (d : UnusedVariableDetector) :
    (visitSimple ln s d).function_params = d.function_params := by
  cases s with
  | assign ts rhs =>
      show (addUses _ _).function_params = _
      unfold addUses
      simp only []
      rw [params_foldDefined]
  | exprStmt e => rfl

lemma used_visitBody : ∀ (b : List SimpleStmt) (p : UnusedVariableDetector × Nat),
    ((visitBody b p).1).used_vars = (p.1).used_vars ++ loadNamesBody b := by
  intro b
  induction b with
  | nil => intro p; simp [visitBody, loadNamesBody]
  | cons s r ih =>
      intro p
      show ((visitBody r (visitSimple p.2 s p.1, p.2 + 1)).1).used_vars = _
      rw [ih]
      simp only [used_visitSimple, loadNamesBody, List.append_assoc]

lemma params_visitBody : ∀ (b : List SimpleStmt) (p : UnusedVariableDetector × Nat),
    ((visitBody b p).1).function_params = (p.1).function_params := by
  intro b
  induction b with
  | nil => intro p; rfl
  | cons s r ih =>
      intro p
      show ((visitBody r (visitSimple p.2 s p.1, p.2 + 1)).1).function_params = _
      rw [ih]
      exact params_visitSimple _ _ _

lemma used_visitStmt (p : UnusedVariableDetector × Nat) (st : PStmt) :
    ((visitStmt p st).1).used_vars = (p.1).used_vars ++ loadNamesStmt st := by
  cases st with
  | simple s => exact used_visitSimple _ _ _
  | funcDef fn ps body =>
      show ((visitBody body _).1).used_vars = _
      rw [used_visitBody]
      rfl

lemma params_visitStmt (p : UnusedVariableDetector × Nat) (st : PStmt) :
    ((visitStmt p st).1).function_params = (p.1).function_params ++ paramStmt st := by
  cases st with
  | simple s =>
      show (visitSimple p.2 s p.1).function_params = _
      rw [params_visitSimple]
      simp [paramStmt]
  | funcDef fn ps body =>
      show ((visitBody body _).1).function_params = _
      rw [params_visitBody]
      rfl

lemma used_visitList : ∀ (f : PyFile) (p : UnusedVariableDetector × Nat),
    ((visitList f p).1).used_vars = (p.1).used_vars ++ loadNames f := by
  intro f
  induction f with
  | nil => intro p; simp [visitList, loadNames]
  | cons st r ih =>
      intro p
      show ((visitList r (visitStmt p st)).1).used_vars = _
      rw [ih, used_visitStmt]
      simp [loadNames, List.append_assoc]

lemma params_visitList : ∀ (f : PyFile) (p : UnusedVariableDetector × Nat),
    ((visitList f p).1).function_params = (p.1).function_params ++ paramNames f := by
  intro f
  induction f with
  | nil => intro p; simp [visitList, paramNames]
  | cons st r ih =>
      intro p
      show ((visitList r (visitStmt p st)).1).function_params = _
      rw [ih, params_visitStmt]
      simp [paramNames, List.append_assoc]

lemma used_visitFile (f : PyFile) : (visitFile f).used_vars = loadNames f := by
  unfold visitFile
  rw [used_visitList]
  rfl

lemma params_visitFile (f : PyFile) : (visitFile f).function_params = paramNames f := by
  unfold visitFile
  rw [params_visitList]
  rfl

/-- The keys of `defined_vars`. -/
def keysOf (d : UnusedVariableDetector) : List String := d.defined_vars.map Prod.fst

lemma keys_addDefined (d : UnusedVariableDetector) (v : String) (ln : Nat) (w : String) :
    w ∈ keysOf (addDefined d v ln) ↔ w ∈ keysOf d ∨ w = v := by
  unfold addDefined keysOf
  split
  · rename_i hany
    have hkeys : (d.defined_vars.map
        (fun p => if p.1 = v then (p.1, p.2 ++ [ln]) else p)).map Prod.fst
        = d.defined_vars.map Prod.fst := by
      rw [List.map_map]
      apply List.map_congr_left
      intro p _
      by_cases h : p.1 = v <;> simp [h]
    simp only [hkeys]
    constructor
    · exact Or.inl
    · rintro (h | h)
      · exact h
      · subst h
        obtain ⟨p, hp1, hp2⟩ := List.any_eq_true.mp hany
        have : p.1 = w := by simpa using hp2
        exact this ▸ List.mem_map_of_mem Prod.fst hp1
  · simp [List.mem_append]

lemma keys_addUses (d : UnusedVariableDetector) (vs : List String) :
    keysOf (addUses d vs) = keysOf d := rfl

lemma keys_foldDefined (ln : Nat) : ∀ (ts : List String) (d : UnusedVariableDetector)
    (w : String), w ∈ keysOf (ts.foldl (fun acc t => addDefined acc t ln) d) ↔
      w ∈ keysOf d ∨ w ∈ ts := by
  intro ts
  induction ts with
  | nil => intro d w; simp
  | cons t r ih =>
      intro d w
      rw [List.foldl_cons, ih, keys_addDefined]
      simp [List.mem_cons]
      tauto

lemma keys_visitSimple (ln : Nat) (s : SimpleStmt) (d : UnusedVariableDetector)
    (w : String) : w ∈ keysOf (visitSimple ln s d) ↔ w ∈ keysOf d ∨ w ∈ targetsSimple s := by
  cases s with
  | assign ts rhs =>
      show w ∈ keysOf (addUses _ _) ↔ _
      rw [keys_addUses, keys_foldDefined]
      rfl
  | exprStmt e => simp [visitSimple, keys_addUses, targetsSimple]

lemma keys_visitBody : ∀ (b : List SimpleStmt) (p : UnusedVariableDetector × Nat)
    (w : String), w ∈ keysOf ((visitBody b p).1) ↔ w ∈ keysOf p.1 ∨ w ∈ assignedBody b := by
  intro b
  induction b with
  | nil => intro p w; simp [visitBody, assignedBody]
  | cons s r ih =>
      intro p w
      show w ∈ keysOf ((visitBody r (visitSimple p.2 s p.1, p.2 + 1)).1) ↔ _
      rw [ih]
      show (w ∈ keysOf (visitSimple p.2 s p.1) ∨ _) ↔ _
      rw [keys_visitSimple]
      simp only [assignedBody, List.mem_append]
      tauto

lemma keys_visitStmt (p : UnusedVariableDetector × Nat) (st : PStmt) (w : String) :
    w ∈ keysOf ((visitStmt p st).1) ↔ w ∈ keysOf p.1 ∨ w ∈ assignedStmt st := by
  cases st with
  | simple s => exact keys_visitSimple _ _ _ _
  | funcDef fn ps body =>
      show w ∈ keysOf ((visitBody body _).1) ↔ _
      rw [keys_visitBody]
      rfl

lemma keys_visitList : ∀ (f : PyFile) (p : UnusedVariableDetector × Nat) (w : String),
    w ∈ keysOf ((visitList f p).1) ↔ w ∈ keysOf p.1 ∨ w ∈ assignedNames f := by
  intro f
  induction f with
  | nil => intro p w; simp [visitList, assignedNames]
  | cons st r ih =>
      intro p w
      show w ∈ keysOf ((visitList r (visitStmt p st)).1) ↔ _
      rw [ih, keys_visitStmt]
      simp only [assignedNames, List.mem_append]
      tauto

lemma keys_visitFile (f : PyFile) (w : String) :
    w ∈ keysOf (visitFile f) ↔ w ∈ assignedNames f := by
  unfold visitFile
  rw [keys_visitList]
  simp [keysOf, emptyDetector]

/-- The liveness classification the script actually computes: a variable
is reported unused iff it is assigned somewhere, its name is loaded
nowhere in the file (anywhere, in any scope, before or after), it is not
any function's parameter, and it does not start with an underscore. -/
lemma unused_mem_iff (f : PyFile) (v : String) :
    v ∈ unusedOf f ↔ (v ∈ assignedNames f ∧ v ∉ loadNames f ∧
      v ∉ paramNames f ∧ startsWithUnderscore v = false) := by
  unfold unusedOf get_unused_variables
  rw [List.mem_filter]
  rw [show (visitFile f).defined_vars.map Prod.fst = keysOf (visitFile f) from rfl]
  rw [keys_visitFile, decide_eq_true_iff, used_visitFile, params_visitFile]

/-! ## Lemmas about well-formedness and rendering -/

lemma mem_assignedBody {v : String} : ∀ {b : List SimpleStmt},
    v ∈ assignedBody b → ∃ s ∈ b, v ∈ targetsSimple s := by
  intro b
  induction b with
  | nil => intro h; cases h
  | cons s r ih =>
      intro h
      rcases List.mem_append.mp h with h1 | h1
      · exact ⟨s, List.mem_cons_self _ _, h1⟩
      · obtain ⟨s2, hs2, hv⟩ := ih h1
        exact ⟨s2, List.mem_cons_of_mem _ hs2, hv⟩

lemma mem_assignedNames {v : String} : ∀ {f : PyFile},
    v ∈ assignedNames f → ∃ st ∈ f, v ∈ assignedStmt st := by
  intro f
  induction f with
  | nil => intro h; cases h
  | cons st r ih =>
      intro h
      rcases List.mem_append.mp h with h1 | h1
      · exact ⟨st, List.mem_cons_self _ _, h1⟩
      · obtain ⟨st2, hst2, hv⟩ := ih h1
        exact ⟨st2, List.mem_cons_of_mem _ hst2, hv⟩

lemma wf_targets_valid {f : PyFile} (hwf : WFFile f = true) {st : PStmt}
    (hst : st ∈ f) {v : String} (hv : v ∈ assignedStmt st) : ValidName v = true := by
  have hstw : wfStmt st = true := (List.all_eq_true.mp hwf) st hst
  cases st with
  | simple s =>
      cases s with
      | assign ts rhs =>
          unfold wfStmt wfSimple at hstw
          rcases Bool.and_eq_true_iff.mp hstw with ⟨h1, _⟩
          rcases Bool.and_eq_true_iff.mp h1 with ⟨_, h2⟩
          exact (List.all_eq_true.mp h2) v hv
      | exprStmt e => cases hv
  | funcDef fn ps b =>
      unfold wfStmt at hstw
      rcases Bool.and_eq_true_iff.mp hstw with ⟨_, h2⟩
      obtain ⟨s, hs, hvt⟩ := mem_assignedBody hv
      have hsw : wfSimple s = true := (List.all_eq_true.mp h2) s hs
      cases s with
      | assign ts rhs =>
          unfold wfSimple at hsw
          rcases Bool.and_eq_true_iff.mp hsw with ⟨h3, _⟩
          rcases Bool.and_eq_true_iff.mp h3 with ⟨_, h4⟩
          exact (List.all_eq_true.mp h4) v hvt
      | exprStmt e => cases hvt

lemma assigned_valid {f : PyFile} (hwf : WFFile f = true) {v : String}
    (hv : v ∈ assignedNames f) : ValidName v = true := by
  obtain ⟨st, hst, h⟩ := mem_assignedNames hv
  exact wf_targets_valid hwf hst h

lemma unused_valid {f : PyFile} (hwf : WFFile f = true) {v : String}
    (hv : v ∈ unusedOf f) : ValidName v = true :=
  assigned_valid hwf ((unused_mem_iff f v).mp hv).1

lemma mem_renderFile {l : List Char} : ∀ {f : PyFile} {st : PStmt},
    st ∈ f → l ∈ renderStmt st → l ∈ renderFile f := by
  intro f
  induction f with
  | nil => intro st h; cases h
  | cons a r ih =>
      intro st h hl
      rcases List.mem_cons.mp h with h1 | h1
      · subst h1; exact List.mem_append_left _ hl
      · exact List.mem_append_right _ (ih h1 hl)

/-- The rendered line of an assignment statement starts with the first
target, then a space and an equals sign. -/
lemma render1_assign_shape (hd : String) (tl : List String) (rhs : PExpr) :
    ∃ rest, render1 (.assign (hd :: tl) rhs) = hd.data ++ (' ' :: '=' :: rest) := by
  cases tl with
  | nil =>
      exact ⟨' ' :: renderExpr rhs, by simp [render1, joinSep]⟩
  | cons t2 r =>
      refine ⟨' ' :: (joinSep [' ', '=', ' '] (t2.data :: r.map String.data) ++
        (' ' :: '=' :: ' ' :: renderExpr rhs)), ?_⟩
      simp [render1, joinSep, List.append_assoc]

/-- The rendered line of an assignment is matched by the pattern for its
first target. -/
lemma matches_render1_assign {hd : String} (hhd : ValidName hd = true)
    (tl : List String) (rhs : PExpr) (sp : List Char)
    (hsp : ∀ c ∈ sp, isSpaceChar c = true) :
    matchesCore hd.data (sp ++ render1 (.assign (hd :: tl) rhs)) = true := by
  obtain ⟨rest, hr⟩ := render1_assign_shape hd tl rhs
  rw [hr]
  exact matchesCore_pos hhd sp hsp rest

lemma indent4_space : ∀ c ∈ indent4, isSpaceChar c = true := by
  intro c hc
  rcases List.mem_cons.mp hc with h | h
  · subst h; decide
  rcases List.mem_cons.mp h with h | h
  · subst h; decide
  rcases List.mem_cons.mp h with h | h
  · subst h; decide
  rcases List.mem_cons.mp h with h | h
  · subst h; decide
  cases h

/-- For a well-formed file where every assignment has a single target,
every assigned variable owns a rendered line that the removal pattern
matches. -/
lemma exists_matching_line {f : PyFile} (hwf : WFFile f = true)
    (hst : SingleTargets f = true) {v : String} (hv : v ∈ assignedNames f) :
    ∃ l ∈ renderFile f, matchesCore v.data l = true := by
  obtain ⟨st, hstf, hvst⟩ := mem_assignedNames hv
  have hvalid : ValidName v = true := wf_targets_valid hwf hstf hvst
  have hsts := (List.all_eq_true.mp hst) st hstf
  cases st with
  | simple s =>
      cases s with
      | assign ts rhs =>
          have hlen : ts.length = 1 := by
            simpa [singleTargetSimple] using hsts
          obtain ⟨w, hw⟩ := List.length_eq_one.mp hlen
          subst hw
          have hvw : v = w := by simpa [assignedStmt, targetsSimple] using hvst
          subst hvw
          refine ⟨render1 (.assign [v] rhs), ?_, ?_⟩
          · exact mem_renderFile hstf (by simp [renderStmt])
          · have := matches_render1_assign hvalid [] rhs [] (by intro c hc; cases hc)
            simpa using this
      | exprStmt e => simp [assignedStmt, targetsSimple] at hvst
  | funcDef fn ps b =>
      have hvb : v ∈ assignedBody b := by simpa [assignedStmt] using hvst
      obtain ⟨s, hs, hvt⟩ := mem_assignedBody hvb
      cases s with
      | assign ts rhs =>
          have hlen : ts.length = 1 := by
            have := (List.all_eq_true.mp hsts) _ hs
            simpa [singleTargetSimple] using this
          obtain ⟨w, hw⟩ := List.length_eq_one.mp hlen
          subst hw
          have hvw : v = w := by simpa [targetsSimple] using hvt
          subst hvw
          refine ⟨indent4 ++ render1 (.assign [v] rhs), ?_, ?_⟩
          · apply mem_renderFile hstf
            show _ ∈ _ :: b.map _
            apply List.mem_cons_of_mem
            exact List.mem_map_of_mem _ hs
          · exact matches_render1_assign hvalid [] rhs indent4 indent4_space
      | exprStmt e => simp [targetsSimple] at hvt

/-! ## Branch structure of `process_python_file` -/

lemma process_some_eq (f : PyFile) (c : List (List Char)) :
    process_python_file (some f) c =
      if (unusedOf f).isEmpty then (c, 0, 0)
      else if 0 < (pyRemoveLoop (unusedOf f) c).2 then
        ((pyRemoveLoop (unusedOf f) c).1, (pyRemoveLoop (unusedOf f) c).2, 0)
      else (c, 0, 0) := rfl

lemma isEmpty_false_of_ne {l : List String} (h : l ≠ []) : l.isEmpty = false := by
  cases l with
  | nil => exact absurd rfl h
  | cons a r => rfl

lemma pyRun_empty {f : PyFile} (h : unusedOf f = []) :
    pyRun f = (renderFile f, 0, 0) := by
  unfold pyRun
  rw [process_some_eq, h]
  rfl

lemma pyRun_pos {f : PyFile} (h : unusedOf f ≠ [])
    (hr : 0 < (pyRemoveLoop (unusedOf f) (renderFile f)).2) :
    pyRun f = ((pyRemoveLoop (unusedOf f) (renderFile f)).1,
      (pyRemoveLoop (unusedOf f) (renderFile f)).2, 0) := by
  unfold pyRun
  rw [process_some_eq, isEmpty_false_of_ne h]
  simp only [Bool.false_eq_true, if_false]
  rw [if_pos hr]

lemma pyRun_zero {f : PyFile} (h : unusedOf f ≠ [])
    (hr : (pyRemoveLoop (unusedOf f) (renderFile f)).2 = 0) :
    pyRun f = (renderFile f, 0, 0) := by
  unfold pyRun
  rw [process_some_eq, isEmpty_false_of_ne h]
  simp only [Bool.false_eq_true, if_false]
  rw [if_neg (by rw [hr]; exact Nat.lt_irrefl 0)]

/-- The rewritten text of a run: either nothing was removed and the
content is returned unchanged, or it is the result of the removal loop. -/
lemma pyRun_out_mem {f : PyFile} {v : String} (hval : ValidName v = true)
    (hvu : v ∉ unusedOf f) (hall : ∀ u ∈ unusedOf f, ValidName u = true)
    {l : List Char} (hl : l ∈ renderFile f) (hm : matchesCore v.data l = true) :
    l ∈ (pyRun f).1 := by
  cases hu : unusedOf f with
  | nil => rw [pyRun_empty hu]; exact hl
  | cons a r =>
      have hne : unusedOf f ≠ [] := by rw [hu]; intro h; cases h
      by_cases hpos : 0 < (pyRemoveLoop (unusedOf f) (renderFile f)).2
      · rw [pyRun_pos hne hpos]
        exact loop_keeps (unusedOf f) (renderFile f) v hval hall hvu l hl hm
      · rw [pyRun_zero hne (Nat.eq_zero_of_not_pos hpos)]
        exact hl

lemma filter_eq_self_of {α : Type} (p : α → Bool) :
    ∀ (l : List α), (∀ x ∈ l, p x = true) → l.filter p = l := by
  intro l
  induction l with
  | nil => intro _; rfl
  | cons a r ih =>
      intro h
      rw [List.filter_cons, if_pos (h a (List.mem_cons_self _ _))]
      rw [ih (fun x hx => h x (List.mem_cons_of_mem _ hx))]

lemma filter_eq_nil_of {α : Type} (p : α → Bool) :
    ∀ (l : List α), (∀ x ∈ l, p x = false) → l.filter p = [] := by
  intro l
  induction l with
  | nil => intro _; rfl
  | cons a r ih =>
      intro h
      rw [List.filter_cons]
      have := h a (List.mem_cons_self _ _)
      simp only [this, Bool.false_eq_true, if_false]
      exact ih (fun x hx => h x (List.mem_cons_of_mem _ hx))

/-! ## Reduction helpers for the I/O model -/

lemma pyRunDisk_some_noFault (t : PyFile) (disk : List (List Char)) :
    pyRunDisk (some t) disk .noFault =
      if (unusedOf t).isEmpty then (flattenPy disk, 0, 0)
      else if 0 < (pyRemoveLoop (unusedOf t) disk).2 then
        (flattenPy (pyRemoveLoop (unusedOf t) disk).1, (pyRemoveLoop (unusedOf t) disk).2, 0)
      else (flattenPy disk, 0, 0) := rfl

lemma pyRunDisk_some_write (t : PyFile) (disk : List (List Char)) (k : Nat) :
    pyRunDisk (some t) disk (.writeFail k) =
      if (unusedOf t).isEmpty then (flattenPy disk, 0, 0)
      else if 0 < (pyRemoveLoop (unusedOf t) disk).2 then
        ((flattenPy (pyRemoveLoop (unusedOf t) disk).1).take k, 0, 1)
      else (flattenPy disk, 0, 0) := rfl

lemma jsRunDisk_noFault (file : List JsLine) :
    jsRunDisk file .noFault =
      if 0 < (jsLoop (file.filter isDecl) (file, 0)).2 then
        (flattenJs (jsLoop (file.filter isDecl) (file, 0)).1,
          (jsLoop (file.filter isDecl) (file, 0)).2, 0)
      else (flattenJs file, 0, 0) := rfl

lemma jsRunDisk_write (file : List JsLine) (k : Nat) :
    jsRunDisk file (.writeFail k) =
      if 0 < (jsLoop (file.filter isDecl) (file, 0)).2 then
        ((flattenJs (jsLoop (file.filter isDecl) (file, 0)).1).take k, 0, 1)
      else (flattenJs file, 0, 0) := rfl

lemma pyRunDisk_err_le (parsed : Option PyFile) (disk : List (List Char))
    (fault : Fault) : (pyRunDisk parsed disk fault).2.2 ≤ 1 := by
  cases fault with
  | readFail => exact Nat.le_refl 1
  | noFault =>
      cases parsed with
      | none => exact Nat.le_refl 1
      | some t =>
          rw [pyRunDisk_some_noFault]
          split
          · exact Nat.zero_le 1
          · split
            · exact Nat.zero_le 1
            · exact Nat.zero_le 1
  | writeFail k =>
      cases parsed with
      | none => exact Nat.le_refl 1
      | some t =>
          rw [pyRunDisk_some_write]
          split
          · exact Nat.zero_le 1
          · split
            · exact Nat.le_refl 1
            · exact Nat.zero_le 1

lemma jsRunDisk_err_le (file : List JsLine) (fault : Fault) :
    (jsRunDisk file fault).2.2 ≤ 1 := by
  cases fault with
  | readFail => exact Nat.le_refl 1
  | noFault =>
      rw [jsRunDisk_noFault]
      split
      · exact Nat.zero_le 1
      · exact Nat.zero_le 1
  | writeFail k =>
      rw [jsRunDisk_write]
      split
      · exact Nat.le_refl 1
      · exact Nat.zero_le 1

/-! ## Claim C1 -/

def c1File : PyFile :=
  [.simple (.assign ["y"] (.lit "1")), .simple (.exprStmt (.call "print" ["x"]))]

/-- C1 counterexample: for the file `y = 1; print(x)` (where `y` is
removed), a write failure after zero bytes leaves the file empty, not
byte-for-byte equal to its previous content: the write-back is an
in-place truncation (`open(filepath, 'w')`), not
write-to-temporary-then-replace. -/
theorem claim_C1_counterexample :
    (pyRunDisk (some c1File) (renderFile c1File) (.writeFail 0)).1 ≠
      flattenPy (renderFile c1File) := by decide

/-- C1 (amended): only an I/O failure that happens before the write step
(at the read) leaves the file byte-for-byte unmodified, with one error
counted; the rewrite itself is performed by in-place truncation
(truncate, then write the new content), so a failure during the write
leaves a prefix of the new content on disk. -/
theorem claim_C1_amended :
    (∀ (parsed : Option PyFile) (disk : List (List Char)),
      pyRunDisk parsed disk .readFail = (flattenPy disk, 0, 1)) ∧
    (∀ jf : List JsLine, jsRunDisk jf .readFail = (flattenJs jf, 0, 1)) :=
  ⟨fun _ _ => rfl, fun _ => rfl⟩

/-! ## Claim C2 -/

def c2File : PyFile :=
  [.simple (.assign ["y", "x"] (.lit "1")), .simple (.exprStmt (.call "print" ["x"]))]

/-- C2 counterexample: in `y = x = 1` followed by `print(x)`, the
binding `x` is read and is never selected for removal, yet removing the
dead `y` deletes the whole line `y = x = 1`, so after rewriting no line
binds `x`: the Load of `x` is left dangling. -/
theorem claim_C2_counterexample :
    "x" ∈ assignedNames c2File ∧ "x" ∉ unusedOf c2File ∧
      "x" ∈ loadNames c2File ∧ textBinds (pyRun c2File).1 "x" = false := by decide

/-- C2 (amended): for well-formed files in which every assignment has a
single target, every Load reference to a binding the run does not remove
still resolves to an assignment line in the rewritten file. -/
theorem claim_C2_amended (f : PyFile) (v : String) (hwf : WFFile f = true)
    (hst : SingleTargets f = true) (hv : v ∈ assignedNames f)
    (hl : v ∈ loadNames f) : textBinds (pyRun f).1 v = true := by
  have hvu : v ∉ unusedOf f := by
    intro hmem
    exact ((unused_mem_iff f v).mp hmem).2.1 hl
  have hval : ValidName v = true := assigned_valid hwf hv
  obtain ⟨l, hlf, hlm⟩ := exists_matching_line hwf hst hv
  have hout : l ∈ (pyRun f).1 :=
    pyRun_out_mem hval hvu (fun u hu => unused_valid hwf hu) hlf hlm
  unfold textBinds
  exact List.any_eq_true.mpr ⟨l, hout, hlm⟩

def c2W : PyFile :=
  [.simple (.assign ["x"] (.lit "1")), .simple (.exprStmt (.call "print" ["x"]))]

/-- Witness for C2 (amended) at the file `x = 1; print(x)`. -/
theorem claim_C2_amended_witness :
    WFFile c2W = true ∧ SingleTargets c2W = true ∧ "x" ∈ assignedNames c2W ∧
      "x" ∈ loadNames c2W ∧ textBinds (pyRun c2W).1 "x" = true :=
  ⟨by decide, by decide, by decide, by decide,
    claim_C2_amended c2W "x" (by decide) (by decide) (by decide) (by decide)⟩

/-! ## Claim C3 -/

def c3Js : List JsLine := [.decl [] .kConst "_tmp" "1".data]

/-- C3 counterexample: the JavaScript path has no marker exclusion: the
never-read declaration `const _tmp = 1;` (name starting with the
"intentionally unused" underscore marker) is removed and counted. -/
theorem claim_C3_counterexample :
    startsWithUnderscore "_tmp" = true ∧
      process_javascript_file c3Js = ([], 1, 0) := by decide

/-- C3 (amended): the marker exclusion holds on the Python path only: a
binding whose name starts with `_` is never classified unused there, and
every line assigning it survives the rewrite; the JavaScript path does
not implement the exclusion. -/
theorem claim_C3_amended (f : PyFile) (v : String) (hwf : WFFile f = true)
    (hval : ValidName v = true) (hus : startsWithUnderscore v = true) :
    v ∉ unusedOf f ∧ linesKept v (renderFile f) (pyRun f).1 = true := by
  have hvu : v ∉ unusedOf f := by
    intro hmem
    have h := ((unused_mem_iff f v).mp hmem).2.2.2
    rw [hus] at h
    cases h
  refine ⟨hvu, ?_⟩
  unfold linesKept
  apply List.all_eq_true.mpr
  intro l hl
  by_cases hm : matchesCore v.data l = true
  · have hout : l ∈ (pyRun f).1 :=
      pyRun_out_mem hval hvu (fun u hu => unused_valid hwf hu) hl hm
    simp [mem_contains_lines hout, hout]
  · have h := Bool.eq_false_iff.mpr hm
    simp [h]

def c3W : PyFile := [.simple (.assign ["_tmp"] (.lit "1"))]

/-- Witness for C3 (amended) at the file `_tmp = 1`. -/
theorem claim_C3_amended_witness :
    WFFile c3W = true ∧ startsWithUnderscore "_tmp" = true ∧
      ("_tmp" ∉ unusedOf c3W ∧ linesKept "_tmp" (renderFile c3W) (pyRun c3W).1 = true) :=
  ⟨by decide, by decide, claim_C3_amended c3W "_tmp" (by decide) (by decide) (by decide)⟩

/-! ## Claim C4 -/

def c4File : PyFile :=
  [.simple (.assign ["x"] (.lit "1")), .simple (.assign ["y"] (.pname "x"))]

def c4Out : PyFile := [.simple (.assign ["x"] (.lit "1"))]

/-- C4 counterexample: on `x = 1; y = x`, the first run removes `y = x`
(its output renders exactly as `c4Out`), and the second run removes one
more line (`x = 1`, which became dead), changing the file again: the
engine is not idempotent. -/
theorem claim_C4_counterexample :
    renderFile c4Out = (pyRun c4File).1 ∧ (pyRun c4Out).2.1 = 1 ∧
      (pyRun c4Out).1 ≠ renderFile c4Out := by decide

/-- C4 (amended): the second run is a no-op exactly when the first run's
output has zero dead bindings, which the first run does not guarantee:
when the re-parsed output has an empty unused set, running the engine on
it removes nothing and leaves the content unchanged. -/
theorem claim_C4_amended (f g : PyFile) (hg : renderFile g = (pyRun f).1)
    (hz : unusedOf g = []) : pyRun g = (renderFile g, 0, 0) :=
  pyRun_empty hz

def c4WF : PyFile :=
  [.simple (.assign ["x"] (.lit "1")), .simple (.assign ["y"] (.lit "2")),
    .simple (.exprStmt (.call "print" ["x"]))]

def c4WG : PyFile :=
  [.simple (.assign ["x"] (.lit "1")), .simple (.exprStmt (.call "print" ["x"]))]

/-- Witness for C4 (amended): the first run on `x = 1; y = 2; print(x)`
outputs `x = 1; print(x)`, whose unused set is empty, and the second run
is a no-op there. -/
theorem claim_C4_amended_witness :
    renderFile c4WG = (pyRun c4WF).1 ∧ unusedOf c4WG = [] ∧
      pyRun c4WG = (renderFile c4WG, 0, 0) :=
  ⟨by decide, by decide, claim_C4_amended c4WF c4WG (by decide) (by decide)⟩

/-! ## Claim C5 -/

def c5File : PyFile :=
  [.simple (.exprStmt (.call "print" ["x"])), .simple (.assign ["x"] (.lit "2"))]

/-- C5 counterexample: in `print(x)` followed by `x = 2`, the only Load
of `x` occurs textually before the declaration, so the spec contract
classifies the binding dead, but the script classifies it live (its
used-set ignores positions entirely). -/
theorem claim_C5_counterexample :
    specDeadFlat c5File "x" = true ∧ "x" ∉ unusedOf c5File := by decide

/-- C5 (amended): the script classifies a binding dead iff its name is
assigned somewhere, no Load-context reference to the name occurs
anywhere in the file (in any scope, before or after the declaration),
the name is not any function's parameter, and it does not carry the
underscore marker. -/
theorem claim_C5_amended (f : PyFile) (v : String) :
    v ∈ unusedOf f ↔ (v ∈ assignedNames f ∧ v ∉ loadNames f ∧
      v ∉ paramNames f ∧ startsWithUnderscore v = false) :=
  unused_mem_iff f v

/-! ## Claim C6 -/

def c6File : PyFile :=
  [.simple (.assign ["y"] (.lit "1")), .simple (.assign ["y"] (.lit "2"))]

/-- C6 counterexample: with `y = 1; y = 2` and `y` never read, the
engine removes BOTH assignment lines (and counts 2), not only the final
one: the earlier line `y = 1` is not kept. -/
theorem claim_C6_counterexample :
    "y" ∈ unusedOf c6File ∧ "y = 1".data ∈ renderFile c6File ∧
      (pyRun c6File).2.1 = 2 ∧ "y = 1".data ∉ (pyRun c6File).1 := by decide

/-- C6 (amended): for a name classified dead, the rewrite removes every
line assigning it — all repeated assignments, not only the last one: no
line of the output matches the removal pattern for that name. -/
theorem claim_C6_amended (f : PyFile) (v : String) (hv : v ∈ unusedOf f) :
    textNoMatch v (pyRun f).1 = true := by
  have hne : unusedOf f ≠ [] := fun h => absurd (h ▸ hv) (List.not_mem_nil v)
  by_cases hpos : 0 < (pyRemoveLoop (unusedOf f) (renderFile f)).2
  · rw [pyRun_pos hne hpos]
    unfold textNoMatch
    apply List.all_eq_true.mpr
    intro l hl
    have h := loop_removes (unusedOf f) (renderFile f) v hv l hl
    simp [h]
  · have h0 := Nat.eq_zero_of_not_pos hpos
    rw [pyRun_zero hne h0]
    unfold textNoMatch
    apply List.all_eq_true.mpr
    intro l hl
    obtain ⟨-, h2⟩ := loop_zero (unusedOf f) (renderFile f) h0
    have h := countMatches_zero (h2 v hv) l hl
    simp [h]

/-- Witness for C6 (amended) at the file `y = 1; y = 2`. -/
theorem claim_C6_amended_witness :
    "y" ∈ unusedOf c6File ∧ textNoMatch "y" (pyRun c6File).1 = true :=
  ⟨by decide, claim_C6_amended c6File "y" (by decide)⟩

/-! ## Claim C7 -/

def c7Lines : List (List Char) := ["x = (".data, "    1 +".data, "    2)".data]

/-- C7 counterexample: removing the dead binding of the multi-line
statement `x = (\n    1 +\n    2)` deletes only the first physical line;
the continuation lines remain, so the removed span does not extend to
the last physical line of the statement. -/
theorem claim_C7_counterexample :
    removeOnePass "x" c7Lines = ["    1 +".data, "    2)".data] ∧
      removeOnePass "x" c7Lines ≠ [] := by decide

/-- C7 (amended): removal is computed per physical line, not per
statement: deleting a dead binding always removes the declaration's
first physical line, while every remaining line of the file — including
the continuation lines of a multi-line right-hand side — is removed
exactly when it, on its own, matches the removal pattern for the dead
name.  The span is never extended to the last physical line of the
statement: continuation lines that do not match the pattern remain in
the file, and ones that do match (such as a keyword-argument line
`    x=1)`) are deleted as well. -/
theorem claim_C7_amended (v : String) (t : List Char) (cont : List (List Char))
    (hv : ValidName v = true) :
    removeOnePass v ((v.data ++ (' ' :: '=' :: ' ' :: t)) :: cont) =
      removeOnePass v cont ∧
    countMatches v ((v.data ++ (' ' :: '=' :: ' ' :: t)) :: cont) =
      1 + countMatches v cont := by
  have hm1 : matchesCore v.data (v.data ++ (' ' :: '=' :: ' ' :: t)) = true := by
    have h := matchesCore_pos hv [] (fun c hc2 => absurd hc2 (List.not_mem_nil c)) (' ' :: t)
    simpa using h
  constructor
  · unfold removeOnePass
    rw [List.filter_cons]
    simp only [hm1, Bool.not_true, Bool.false_eq_true, if_false]
  · unfold countMatches
    rw [List.filter_cons]
    simp only [hm1, if_true, List.length_cons]
    omega

/-- Witness for C7 (amended) at the statement `x = dict(` with the
continuation lines `    1 +` (kept: it does not match the pattern) and
`    x=1)` (also deleted: it matches the pattern on its own). -/
theorem claim_C7_amended_witness :
    ValidName "x" = true ∧
      (removeOnePass "x" (("x".data ++ (' ' :: '=' :: ' ' :: "dict(".data)) ::
          ["    1 +".data, "    x=1)".data]) =
        removeOnePass "x" ["    1 +".data, "    x=1)".data] ∧
      countMatches "x" (("x".data ++ (' ' :: '=' :: ' ' :: "dict(".data)) ::
          ["    1 +".data, "    x=1)".data]) =
        1 + countMatches "x" ["    1 +".data, "    x=1)".data]) ∧
      removeOnePass "x" ["    1 +".data, "    x=1)".data] = ["    1 +".data] :=
  ⟨by decide,
    claim_C7_amended "x" "dict(".data ["    1 +".data, "    x=1)".data] (by decide),
    by decide⟩

/-! ## Claim C8 -/

def c8File : PyFile := [.simple (.assign ["a", "b"] (.lit "1"))]

/-- C8 counterexample: the multi-target assignment `a = b = 1` is not
treated as "all targets live": both `a` and `b` are classified unused,
the whole line is removed (count 1), and no warning mechanism exists. -/
theorem claim_C8_counterexample :
    (pyRun c8File).1 = [] ∧ renderFile c8File ≠ [] ∧
      (pyRun c8File).2.1 = 1 := by decide

/-- C8 (amended): each Name target of a multi-target assignment is
recorded as its own binding, and the statement's line is removed exactly
when the FIRST target is classified unused (dragging the other targets'
bindings away with it); no warning is recorded. -/
theorem claim_C8_amended (f : PyFile) (hd t2 : String) (tl : List String)
    (rhs : PExpr) (hwf : WFFile f = true)
    (hmem : PStmt.simple (.assign (hd :: t2 :: tl) rhs) ∈ f) :
    hd ∉ unusedOf f ↔ render1 (.assign (hd :: t2 :: tl) rhs) ∈ (pyRun f).1 := by
  have hhd : ValidName hd = true :=
    wf_targets_valid hwf hmem (by simp [assignedStmt, targetsSimple])
  have hmL : matchesCore hd.data (render1 (.assign (hd :: t2 :: tl) rhs)) = true := by
    have h := matches_render1_assign hhd (t2 :: tl) rhs []
      (fun c hc => absurd hc (List.not_mem_nil c))
    simpa using h
  have hLf : render1 (.assign (hd :: t2 :: tl) rhs) ∈ renderFile f :=
    mem_renderFile hmem (by simp [renderStmt])
  constructor
  · intro hvu
    exact pyRun_out_mem hhd hvu (fun u hu => unused_valid hwf hu) hLf hmL
  · intro hout hin
    have hne : unusedOf f ≠ [] := fun h => absurd (h ▸ hin) (List.not_mem_nil hd)
    by_cases hpos : 0 < (pyRemoveLoop (unusedOf f) (renderFile f)).2
    · rw [pyRun_pos hne hpos] at hout
      have h := loop_removes (unusedOf f) (renderFile f) hd hin _ hout
      rw [hmL] at h
      cases h
    · have h0 := Nat.eq_zero_of_not_pos hpos
      obtain ⟨-, h2⟩ := loop_zero (unusedOf f) (renderFile f) h0
      have h := countMatches_zero (h2 hd hin) _ hLf
      rw [hmL] at h
      cases h

/-- Witness for C8 (amended) at `a = b = 1`. -/
theorem claim_C8_amended_witness :
    WFFile c8File = true ∧
      ("a" ∉ unusedOf c8File ↔
        render1 (.assign ["a", "b"] (.lit "1")) ∈ (pyRun c8File).1) :=
  ⟨by decide, claim_C8_amended c8File "a" "b" [] (.lit "1") (by decide)
    (List.mem_cons_self _ _)⟩

/-! ## Claim C9 -/

/-- C9: when the text does not parse (`ast.parse` raises
`SyntaxError`), the engine skips the file — the content on disk is left
untouched, the result counts exactly one error and zero removals, and no
heuristic (JavaScript-style) pass is applied to the file, whatever the
fault state of the later I/O steps. -/
theorem claim_C9_parse_error_skips (disk : List (List Char)) (fault : Fault) :
    pyRunDisk none disk fault = (flattenPy disk, 0, 1) := by
  cases fault <;> rfl

/-! ## Claim C10 -/

/-- C10: both per-file entry points are total: every modelled I/O
failure is caught inside the function, the per-file error count of the
returned pair never exceeds 1, and a read failure makes the function
return exactly `(0, 1)`. -/
theorem claim_C10_total (parsed : Option PyFile) (disk : List (List Char))
    (jf : List JsLine) (fault : Fault) :
    (pyRunDisk parsed disk fault).2.2 ≤ 1 ∧ (jsRunDisk jf fault).2.2 ≤ 1 ∧
      (fault = .readFail →
        (pyRunDisk parsed disk fault).2 = (0, 1) ∧ (jsRunDisk jf fault).2 = (0, 1)) := by
  refine ⟨pyRunDisk_err_le parsed disk fault, jsRunDisk_err_le jf fault, ?_⟩
  intro h
  subst h
  exact ⟨rfl, rfl⟩

/-- Witness for C10 at a read failure on concrete inputs. -/
theorem claim_C10_total_witness :
    (pyRunDisk (some []) [] Fault.readFail).2 = (0, 1) ∧
      (jsRunDisk [] Fault.readFail).2 = (0, 1) :=
  (claim_C10_total (some []) [] [] Fault.readFail).2.2 rfl
